import Mathlib

/-!
# Verification of the portapps utility surface (`sys.go`)

Shallow embedding of the Windows-oriented filesystem and shell-integration
helpers in `sys.go`, together with theorems settling the specification's
claims about them.

OS primitives (stat, open, mkdir, remove, OLE calls) are modelled by
explicit oracles or by a small filesystem state so the wrappers' control
flow and error flow can be reproduced faithfully.
-/

set_option autoImplicit false

namespace Portapps

/-- An abstract OS error code.  The concrete payload never matters to the
wrappers; they only branch on a stat error being "not exist". -/
inductive Err where
  | notExist
  | other (code : Nat)
  deriving DecidableEq, Repr

/-- Embeds Go `os.IsNotExist`. -/
def Err.isNotExist : Err → Bool
  | .notExist => true
  | .other _ => false

/-! ## `PathJoin` (sys.go lines 219-226)

```go
func PathJoin(elem ...string) string {
    for i, e := range elem {
        if e != "" {
            return strings.Join(elem[i:], `\`)
        }
    }
    return ""
}
```
The loop returns at the first non-empty element `e = elem[i]`, joining
`elem[i:]` (which starts with `e`) with a backslash; if every element is
empty it falls through to `""`.  The recursion below is that loop. -/

/-- Embeds `PathJoin`: skip empty elements until the first non-empty one,
then join it and everything after it with `"\\"` (Go `strings.Join` is
`String.intercalate`). -/
def PathJoin : List String → String
  | [] => ""
  | e :: rest => if e ≠ "" then String.intercalate "\\" (e :: rest) else PathJoin rest

/-- The spec's wording of path join, for the refinement comparison:
"concatenates non-empty segments with a Windows-style separator, skipping
leading empty segments entirely — first non-empty segment and everything
after it are joined" (with all-empty input giving the empty string). -/
def PathJoinSpec (elem : List String) : String :=
  String.intercalate "\\" (elem.dropWhile (fun e => e == ""))

/-! ## `Exists` (sys.go lines 244-251)

```go
func Exists(name string) bool {
    if _, err := os.Stat(name); err != nil {
        if os.IsNotExist(err) {
            return false
        }
    }
    return true
}
```
The outcome of `os.Stat` is the oracle `statResult`: `none` means the stat
succeeded, `some e` that it failed with error `e`. -/

/-- Embeds `Exists` as a function of the stat outcome for the given name. -/
def Exists (statResult : Option Err) : Bool :=
  match statResult with
  | some err => if err.isNotExist then false else true
  | none => true

/-! ## `CreateShortcut` (sys.go lines 19-78)

```go
type WindowsShortcutProperty struct {
    Value string
    Clear bool
}
```
After the OLE plumbing succeeds, the success path performs one
`PutProperty` per property:

```go
oleutil.PutProperty(idispatch, "TargetPath", shortcut.TargetPath)
if shortcut.Arguments.Value != "" || shortcut.Arguments.Clear {
    oleutil.PutProperty(idispatch, "Arguments", shortcut.Arguments.Value)
}
// ... likewise for Description, IconLocation, WorkingDirectory
```
We model the shortcut object by the list of `PutProperty` calls
(property name, written value) the function issues. -/

/-- Embeds Go `WindowsShortcutProperty`. -/
structure WindowsShortcutProperty where
  Value : String
  Clear : Bool
  deriving Repr

/-- Embeds Go `WindowsShortcut`. -/
structure WindowsShortcut where
  ShortcutPath : String
  TargetPath : String
  Arguments : WindowsShortcutProperty
  Description : WindowsShortcutProperty
  IconLocation : WindowsShortcutProperty
  WorkingDirectory : WindowsShortcutProperty
  deriving Repr

/-- One guarded `PutProperty` of `CreateShortcut`:
`if p.Value != "" || p.Clear { PutProperty(idispatch, name, p.Value) }`,
rendered as the list of calls it issues (one or none). -/
def propPut (name : String) (p : WindowsShortcutProperty) : List (String × String) :=
  if p.Value != "" || p.Clear then [(name, p.Value)] else []

/-- The sequence of `PutProperty` calls issued by `CreateShortcut`'s
success path, in source order (sys.go lines 62-74). -/
def CreateShortcutPuts (s : WindowsShortcut) : List (String × String) :=
  [("TargetPath", s.TargetPath)]
    ++ propPut "Arguments" s.Arguments
    ++ propPut "Description" s.Description
    ++ propPut "IconLocation" s.IconLocation
    ++ propPut "WorkingDirectory" s.WorkingDirectory

/-- Outcomes of the fallible OLE calls in `CreateShortcut`, in call order:
`CreateObject`, `QueryInterface`, the `CreateShortcut` method call, and the
final `Save`.  `none` is success. -/
structure OleEnv where
  createObjectErr : Option Err
  queryInterfaceErr : Option Err
  createShortcutCallErr : Option Err
  saveErr : Option Err

/-- Embeds `CreateShortcut`: returns the `PutProperty` calls performed and
the returned error.  An error before the property block performs no puts;
after the puts, the result of `Save` is returned. -/
def CreateShortcut (env : OleEnv) (s : WindowsShortcut) :
    List (String × String) × Option Err :=
  match env.createObjectErr with
  | some e => ([], some e)
  | none =>
    match env.queryInterfaceErr with
    | some e => ([], some e)
    | none =>
      match env.createShortcutCallErr with
      | some e => ([], some e)
      | none => (CreateShortcutPuts s, env.saveErr)

/-! ## `CreateFile` (sys.go lines 204-216)

```go
func CreateFile(path string, content string) error {
    file, err := os.Create(path)
    if err != nil {
        return err
    }
    defer file.Close()
    _, err = file.WriteString(content)
    if err = file.Sync(); err != nil {
        return err
    }
    return nil
}
```
Note the control flow: the error of `WriteString` is assigned to `err`
and immediately overwritten by the assignment `err = file.Sync()`; it is
never examined.  The oracles are the outcomes of `Create`, `WriteString`
and `Sync` for this call. -/

set_option linter.unusedVariables false in
/-- Embeds `CreateFile` as a function of the three OS-call outcomes.  The
two `let err := ...` lines mirror the two assignments to `err`; the first
binding is shadowed unread, exactly as in the source. -/
def CreateFile (createErr writeErr syncErr : Option Err) : Option Err :=
  match createErr with
  | some e => some e
  | none =>
    let err := writeErr
    let err := syncErr
    match err with
    | some e => some e
    | none => none

/-! ## `CopyFolder` (sys.go lines 139-165)

```go
func CopyFolder(source string, dest string) (err error) {
    err = os.MkdirAll(dest, 777)
    if err != nil {
        return err
    }
    folder, _ := os.Open(source)
    objects, err := folder.Readdir(-1)
    for _, object := range objects { ... }
    return nil
}
```
The error of `os.Open(source)` is discarded with `_`; when the open fails
`folder` is `nil`, `Readdir` returns a `nil` slice plus an error that is
never checked, the loop body never runs, and the function returns `nil`.
We model the source tree as an inductive tree and the per-path OS
failures as oracles. -/

/-- A source filesystem tree: what `Readdir` reports under each name. -/
inductive FTree where
  | file : FTree
  | dir (entries : List (String × FTree)) : FTree
  deriving Repr

/-- Go `path.Join` on two clean, non-empty components. -/
def pjoin (a b : String) : String := a ++ "/" ++ b

/-- Per-path OS failure oracles for a `CopyFolder` run: the result of
`os.MkdirAll` on a destination path, whether `os.Open` fails on a source
path, and the result of `CopyFile` for a source/destination pair. -/
structure CopyEnv where
  mkdirErr : String → Option Err
  openFails : String → Bool
  copyFileErr : String → String → Option Err

mutual

/-- Embeds `CopyFolder` on source tree `t` rooted at `source`.  After a
successful `MkdirAll dest`, a failed `os.Open source` (or a `Readdir`
failure, e.g. when `source` is a file) yields no objects and the function
returns `nil`: the open error is silently dropped, as in the source. -/
def CopyFolder (env : CopyEnv) (t : FTree) (source dest : String) : Option Err :=
  match env.mkdirErr dest with
  | some e => some e
  | none =>
    if env.openFails source then none
    else
      match t with
      | .file => none
      | .dir entries => copyObjects env entries source dest

/-- The `for _, object := range objects` loop of `CopyFolder`: recurse
into directories, `CopyFile` files, abort on the first error. -/
def copyObjects (env : CopyEnv) (objects : List (String × FTree))
    (source dest : String) : Option Err :=
  match objects with
  | [] => none
  | (name, .file) :: rest =>
    match env.copyFileErr (pjoin source name) (pjoin dest name) with
    | some e => some e
    | none => copyObjects env rest source dest
  | (name, .dir sub) :: rest =>
    match CopyFolder env (.dir sub) (pjoin source name) (pjoin dest name) with
    | some e => some e
    | none => copyObjects env rest source dest

end

/-! ## Filesystem model for `CreateFolderCheck` and `RemoveContents`

A path is its list of components; a filesystem is the collection of
existing directory paths and file paths. -/

/-- A path, as the list of its components from the root. -/
abbrev FPath := List String

/-- A model filesystem: which paths currently exist as directories and
which as files. -/
structure FS where
  dirs : List FPath
  files : List FPath
  deriving Repr, DecidableEq

/-- The non-empty prefixes of a path, shortest first: the directories
`os.MkdirAll` walks through. -/
def pathSteps (p : FPath) : List FPath :=
  (List.range p.length).map (fun i => p.take (i + 1))

/-- Embeds `os.MkdirAll`: fails when some step of the path already exists
as a file (ENOTDIR); otherwise creates every missing step as a directory
and succeeds, in particular succeeding when the directory already
exists. -/
def MkdirAll (fs : FS) (p : FPath) : Except Err FS :=
  if (pathSteps p).any (fun q => decide (q ∈ fs.files)) then
    .error (.other 0)
  else
    .ok { dirs := fs.dirs ++ (pathSteps p).filter (fun q => !decide (q ∈ fs.dirs)),
          files := fs.files }

/-! `CreateFolderCheck` (sys.go lines 187-193):

```go
func CreateFolderCheck(path string) (string, error) {
    if err := os.MkdirAll(path, 777); err != nil {
        return "", err
    }
    return path, nil
}
```
-/

/-- Embeds `CreateFolderCheck`: `MkdirAll` then return the input path. -/
def CreateFolderCheck (fs : FS) (path : FPath) : Except Err (FPath × FS) :=
  match MkdirAll fs path with
  | .error e => .error e
  | .ok fs2 => .ok (path, fs2)

/-- Embeds `os.RemoveAll p`: removes `p` and everything under it (every
path having `p` as a prefix), and succeeds even if nothing exists. -/
def FS.removeAll (fs : FS) (p : FPath) : FS :=
  { dirs := fs.dirs.filter (fun q => !decide (q.take p.length = p)),
    files := fs.files.filter (fun q => !decide (q.take p.length = p)) }

/-- The name under which `p` is an immediate child of `dir`, if any. -/
def childName (dir p : FPath) : Option String :=
  if p.take dir.length = dir then
    match p.drop dir.length with
    | [n] => some n
    | _ => none
  else none

/-- Embeds `Readdirnames(-1)`: the names of the immediate children of
`dir` present in the filesystem. -/
def FS.childrenNames (fs : FS) (dir : FPath) : List String :=
  (fs.dirs ++ fs.files).filterMap (childName dir)

/-- Well-formedness of the model filesystem: every proper non-empty
prefix of an existing path exists as a directory (as the OS guarantees). -/
def FS.Wf (fs : FS) : Prop :=
  ∀ q ∈ fs.dirs ++ fs.files, ∀ k ∈ List.range q.length, 0 < k → q.take k ∈ fs.dirs

/-! `RemoveContents` (sys.go lines 167-185):

```go
func RemoveContents(dir string) error {
    d, err := os.Open(dir)
    if err != nil { return err }
    defer d.Close()
    names, err := d.Readdirnames(-1)
    if err != nil { return err }
    for _, name := range names {
        err = os.RemoveAll(filepath.Join(dir, name))
        if err != nil { return err }
    }
    return nil
}
```
The oracle `rmFail` says which `os.RemoveAll` calls fail (permission
errors and the like).  Besides the result we record the list of children
the loop attempted to delete, in order. -/

/-- The `for _, name := range names` loop of `RemoveContents`: remove each
child in turn, stopping with the error of the first failed removal.
Returns the attempted names and the outcome. -/
def rcLoop (rmFail : FPath → Bool) (dir : FPath) (fs : FS) :
    List String → List String × Except Err FS
  | [] => ([], .ok fs)
  | n :: rest =>
    if rmFail (dir ++ [n]) then ([n], .error (.other 1))
    else
      let r := rcLoop rmFail dir (fs.removeAll (dir ++ [n])) rest
      (n :: r.1, r.2)

/-- Embeds `RemoveContents`: open the directory (fails when it does not
exist as a directory), read all child names once, then delete each one. -/
def RemoveContents (rmFail : FPath → Bool) (fs : FS) (dir : FPath) :
    List String × Except Err FS :=
  if decide (dir ∈ fs.dirs) then rcLoop rmFail dir fs (fs.childrenNames dir)
  else ([], .error (.other 2))

/-! ## `ReplaceByPrefix` (sys.go lines 286-307)

```go
func ReplaceByPrefix(filename string, prefix string, replace string) error {
    input, err := ioutil.ReadFile(filename)
    if err != nil { return err }
    lines := strings.Split(string(input), "\n")
    for i, line := range lines {
        if strings.HasPrefix(line, prefix) {
            lines[i] = replace
        }
    }
    output := strings.Join(lines, "\n")
    err = ioutil.WriteFile(filename, []byte(output), 0644)
    if err != nil { return err }
    return nil
}
```
Strings are embedded as their character lists so the split/join structure
is provable; `'\n'` is a one-byte character, so the character-level split
coincides with Go's byte-level one on valid UTF-8. -/

/-- Go `strings.Split(s, "\n")` on the character list: cut at every
newline; the empty string yields the single line `[]`. -/
def splitOnNl : List Char → List (List Char)
  | [] => [[]]
  | c :: rest =>
    if c = '\n' then [] :: splitOnNl rest
    else
      match splitOnNl rest with
      | [] => [[c]]
      | l :: ls => (c :: l) :: ls

/-- Go `strings.Join(lines, "\n")` on character lists. -/
def joinNl : List (List Char) → List Char
  | [] => []
  | [l] => l
  | l :: l2 :: ls => l ++ '\n' :: joinNl (l2 :: ls)

/-- The content transformation between the read and the write of
`ReplaceByPrefix` (sys.go lines 293-300): split on newlines, replace the
lines having the given prefix (Go `strings.HasPrefix` is
`List.isPrefixOf`), rejoin with newlines. -/
def ReplaceByPrefixContent (input pre replace : List Char) : List Char :=
  joinNl ((splitOnNl input).map
    (fun line => if pre.isPrefixOf line then replace else line))

/-- Embeds `ReplaceByPrefix` over a map from filename to file contents
(`none`: the file is absent and `ReadFile` fails) with the `WriteFile`
outcome as an oracle. -/
def ReplaceByPrefix (fsm : String → Option (List Char)) (writeErr : Option Err)
    (filename : String) (pre replace : List Char) :
    Except Err (String → Option (List Char)) :=
  match fsm filename with
  | none => .error .notExist
  | some input =>
    let output := ReplaceByPrefixContent input pre replace
    match writeErr with
    | some e => .error e
    | none => .ok (fun n => if n = filename then some output else fsm n)

/-! ## Build-script cleanup (`.build/build-app.xml` lines 82-93)

The cleanup step at the end of the `release.app` target:

```xml
<if>
  <equals arg1="$\x7bdebug\x7d" arg2="false"/>
  <then>
    <delete dir="$\x7bbuild.path\x7d"/>
    <delete dir="$\x7bsetup.path\x7d"/>
    <delete includeemptydirs="true">
      <fileset dir="$\x7btmp.path\x7d">
        <exclude name="version.dat"/>
      </fileset>
    </delete>
  </then>
</if>
```
The guard compares the expanded `debug` property against the string
`"false"`; any other value (including an expansion of an unset property)
skips the whole step. -/

/-- The state of the script's three working directories: whether the
build and setup directories exist, and the entries inside the temp
directory. -/
structure BuildDirsState where
  buildExists : Bool
  setupExists : Bool
  tmpFiles : List String
  deriving Repr, DecidableEq

/-- Embeds the cleanup step of the `release.app` target
(`.build/build-app.xml` lines 82-93): when the `debug` property equals
`"false"` the build and setup directories are deleted and the temp
fileset is deleted except for the entry excluded by name, `version.dat`;
with any other `debug` value the step does nothing. -/
def releaseClean (debug : String) (s : BuildDirsState) : BuildDirsState :=
  if debug == "false" then
    { buildExists := false,
      setupExists := false,
      tmpFiles := s.tmpFiles.filter (fun f => f == "version.dat") }
  else s

end Portapps

namespace Portapps

/-- C2: `PathJoin` drops the leading empty segments and joins the first
non-empty segment with everything after it using a backslash separator;
`PathJoin ["", "", "a", "b"] = "a\\b"`, and an all-empty (or empty) list
gives `""`. -/
theorem pathJoin_skips_leading_empties :
    (∀ elem : List String, PathJoin elem = PathJoinSpec elem)
    ∧ PathJoin ["", "", "a", "b"] = "a\\b"
    ∧ PathJoin [] = ""
    ∧ PathJoin ["", "", ""] = "" := by
  refine ⟨?_, by decide, rfl, by decide⟩
  intro elem
  induction elem with
  | nil => rfl
  | cons e rest ih =>
    by_cases he : e = ""
    · subst he
      simp [PathJoin, PathJoinSpec, List.dropWhile] at ih ⊢
      exact ih
    · have hb : (e == "") = false := beq_eq_false_iff_ne.mpr he
      simp [PathJoin, PathJoinSpec, List.dropWhile, he, hb]

/-- C9: empty segments after the first non-empty one are kept, each
contributing a separator: `PathJoin ["a", "", "b"]` is `"a\\\\b"` (two
consecutive backslashes), not `"a\\b"`. -/
theorem pathJoin_keeps_inner_empties :
    PathJoin ["a", "", "b"] = "a\\\\b" ∧ PathJoin ["a", "", "b"] ≠ "a\\b" := by
  constructor
  · decide
  · decide

/-- A `propPut` block contributes `(name, v)` exactly when the written
value is the property's value and the guard held. -/
theorem mem_propPut_self (name : String) (p : WindowsShortcutProperty) (v : String) :
    (name, v) ∈ propPut name p ↔ v = p.Value ∧ (p.Value ≠ "" ∨ p.Clear) := by
  unfold propPut
  by_cases hc : p.Value != "" || p.Clear
  · have hc' : p.Value ≠ "" ∨ p.Clear := by
      rcases Bool.or_eq_true_iff.mp hc with h | h
      · exact Or.inl (bne_iff_ne.mp h)
      · exact Or.inr h
    simp [hc, hc', Prod.ext_iff]
  · have hc' : ¬(p.Value ≠ "" ∨ p.Clear) := by
      rintro (h | h)
      · exact hc (Bool.or_eq_true_iff.mpr (Or.inl (bne_iff_ne.mpr h)))
      · exact hc (Bool.or_eq_true_iff.mpr (Or.inr h))
    simp [hc, hc']

/-- A `propPut` block never writes under a different property name. -/
theorem mem_propPut_ne (n name : String) (p : WindowsShortcutProperty) (v : String)
    (h : n ≠ name) : (n, v) ∉ propPut name p := by
  unfold propPut
  by_cases hc : p.Value != "" || p.Clear <;> simp [hc, Prod.ext_iff, h]

/-- C6: each optional shortcut property is put on the shortcut object
exactly when its value is non-empty or its clear flag is set, and the
written value is always the property's (possibly empty) value; so a set
clear flag with an empty value writes the empty value, and an empty value
with an unset clear flag puts nothing under that property name. -/
theorem createShortcut_sets_optional_props_iff (s : WindowsShortcut) (v : String) :
    (("Arguments", v) ∈ CreateShortcutPuts s ↔
      v = s.Arguments.Value ∧ (s.Arguments.Value ≠ "" ∨ s.Arguments.Clear))
    ∧ (("Description", v) ∈ CreateShortcutPuts s ↔
      v = s.Description.Value ∧ (s.Description.Value ≠ "" ∨ s.Description.Clear))
    ∧ (("IconLocation", v) ∈ CreateShortcutPuts s ↔
      v = s.IconLocation.Value ∧ (s.IconLocation.Value ≠ "" ∨ s.IconLocation.Clear))
    ∧ (("WorkingDirectory", v) ∈ CreateShortcutPuts s ↔
      v = s.WorkingDirectory.Value ∧
        (s.WorkingDirectory.Value ≠ "" ∨ s.WorkingDirectory.Clear)) := by
  have h1 := mem_propPut_self "Arguments" s.Arguments v
  have h2 := mem_propPut_self "Description" s.Description v
  have h3 := mem_propPut_self "IconLocation" s.IconLocation v
  have h4 := mem_propPut_self "WorkingDirectory" s.WorkingDirectory v
  have n12 := mem_propPut_ne "Arguments" "Description" s.Description v (by decide)
  have n13 := mem_propPut_ne "Arguments" "IconLocation" s.IconLocation v (by decide)
  have n14 := mem_propPut_ne "Arguments" "WorkingDirectory" s.WorkingDirectory v (by decide)
  have n21 := mem_propPut_ne "Description" "Arguments" s.Arguments v (by decide)
  have n23 := mem_propPut_ne "Description" "IconLocation" s.IconLocation v (by decide)
  have n24 := mem_propPut_ne "Description" "WorkingDirectory" s.WorkingDirectory v (by decide)
  have n31 := mem_propPut_ne "IconLocation" "Arguments" s.Arguments v (by decide)
  have n32 := mem_propPut_ne "IconLocation" "Description" s.Description v (by decide)
  have n34 := mem_propPut_ne "IconLocation" "WorkingDirectory" s.WorkingDirectory v (by decide)
  have n41 := mem_propPut_ne "WorkingDirectory" "Arguments" s.Arguments v (by decide)
  have n42 := mem_propPut_ne "WorkingDirectory" "Description" s.Description v (by decide)
  have n43 := mem_propPut_ne "WorkingDirectory" "IconLocation" s.IconLocation v (by decide)
  have tgt1 := eq_false (show ¬(("Arguments" : String) = "TargetPath") by decide)
  have tgt2 := eq_false (show ¬(("Description" : String) = "TargetPath") by decide)
  have tgt3 := eq_false (show ¬(("IconLocation" : String) = "TargetPath") by decide)
  have tgt4 := eq_false (show ¬(("WorkingDirectory" : String) = "TargetPath") by decide)
  refine ⟨?_, ?_, ?_, ?_⟩ <;>
    simp [CreateShortcutPuts, List.mem_append, h1, h2, h3, h4,
      n12, n13, n14, n21, n23, n24, n31, n32, n34, n41, n42, n43,
      tgt1, tgt2, tgt3, tgt4, Prod.ext_iff]

/-- C1 counterexample: with every OS call succeeding except that
`os.Open(source)` fails, `CopyFolder` still returns no error, so the open
error is not propagated; and with `Create` and `Sync` succeeding but
`WriteString` failing, `CreateFile` returns no error. -/
theorem copyFolder_createFile_swallow_cex :
    (CopyEnv.openFails ⟨fun _ => none, fun _ => true, fun _ _ => none⟩ "src" = true
      ∧ CopyFolder ⟨fun _ => none, fun _ => true, fun _ _ => none⟩
          (.dir [("a", .file)]) "src" "dst" = none)
    ∧ CreateFile none (some (Err.other 7)) none = none :=
  ⟨⟨rfl, rfl⟩, rfl⟩

/-- C1 amended: `CopyFolder` propagates the `MkdirAll` error, but when
`MkdirAll` succeeds and opening the source directory fails it silently
returns success; `CreateFile` propagates the `Create` error, and otherwise
returns exactly the `Sync` outcome, discarding the `WriteString` error. -/
theorem copyFolder_createFile_error_flow (env : CopyEnv) (t : FTree)
    (source dest : String) (e : Err) (cw sw : Option Err)
    (hmk : env.mkdirErr dest = none) (hopen : env.openFails source = true) :
    CopyFolder env t source dest = none
    ∧ CreateFile (some e) cw sw = some e
    ∧ CreateFile none cw sw = sw := by
  refine ⟨?_, rfl, ?_⟩
  · cases t <;> simp [CopyFolder, hmk, hopen]
  · cases sw <;> rfl

/-- Witness for `copyFolder_createFile_error_flow` at a concrete
environment where the source open fails. -/
theorem copyFolder_createFile_error_flow_witness :
    CopyFolder ⟨fun _ => none, fun _ => true, fun _ _ => none⟩ .file "s" "d" = none
    ∧ CreateFile (some (Err.other 1)) (some (Err.other 2)) none = some (Err.other 1)
    ∧ CreateFile none (some (Err.other 2)) (some (Err.other 3)) = some (Err.other 3) := by
  have h1 := copyFolder_createFile_error_flow
    ⟨fun _ => none, fun _ => true, fun _ _ => none⟩ .file "s" "d"
    (Err.other 1) (some (Err.other 2)) none rfl rfl
  have h2 := copyFolder_createFile_error_flow
    ⟨fun _ => none, fun _ => true, fun _ _ => none⟩ .file "s" "d"
    (Err.other 1) (some (Err.other 2)) (some (Err.other 3)) rfl rfl
  exact ⟨h1.1, h1.2.1, h2.2.2⟩

/-- C4: when the `debug` property suppresses cleanup (any value other
than `"false"`) the step touches nothing; when cleanup runs it deletes
the build and setup directories and the temp directory's contents,
keeping a temp entry exactly when it is the preserved `version.dat`
file. -/
theorem releaseClean_preserves_version_dat (debug : String)
    (s : BuildDirsState) (f : String) (hdbg : debug ≠ "false") :
    releaseClean debug s = s
    ∧ (releaseClean "false" s).buildExists = false
    ∧ (releaseClean "false" s).setupExists = false
    ∧ (f ∈ (releaseClean "false" s).tmpFiles ↔ f ∈ s.tmpFiles ∧ f = "version.dat") := by
  refine ⟨by simp [releaseClean, hdbg], rfl, rfl, ?_⟩
  simp [releaseClean, List.mem_filter]

/-- Witness for `releaseClean_preserves_version_dat`: a debug run leaves
the directories alone, and a cleanup keeps the `version.dat` entry. -/
theorem releaseClean_preserves_version_dat_witness :
    releaseClean "true" ⟨true, true, ["version.dat", "x"]⟩
      = ⟨true, true, ["version.dat", "x"]⟩
    ∧ "version.dat" ∈ (releaseClean "false"
        ⟨true, true, ["version.dat", "x"]⟩).tmpFiles := by
  have h := releaseClean_preserves_version_dat "true"
    ⟨true, true, ["version.dat", "x"]⟩ "version.dat" (by decide)
  exact ⟨h.1, h.2.2.2.mpr ⟨by decide, rfl⟩⟩

/-- C7: a successful `CreateFolderCheck` returns the input path, leaves
every step of the path existing as a directory, and a second call on the
same path succeeds again with the same path and an unchanged
filesystem. -/
theorem createFolderCheck_idempotent (fs fs2 : FS) (p q : FPath)
    (h : CreateFolderCheck fs p = .ok (q, fs2)) :
    q = p
    ∧ (∀ r ∈ pathSteps p, r ∈ fs2.dirs)
    ∧ CreateFolderCheck fs2 p = .ok (p, fs2) := by
  unfold CreateFolderCheck MkdirAll at h
  by_cases hc : (pathSteps p).any (fun q2 => decide (q2 ∈ fs.files)) <;> simp [hc] at h
  obtain ⟨hq, hfs⟩ := h
  have hdirs : ∀ r ∈ pathSteps p, r ∈ fs2.dirs := by
    intro r hr
    rw [← hfs]
    by_cases hrd : r ∈ fs.dirs
    · exact List.mem_append_left _ hrd
    · exact List.mem_append_right _ (List.mem_filter.mpr ⟨hr, by simp [hrd]⟩)
  refine ⟨hq.symm, hdirs, ?_⟩
  have hfiles : fs2.files = fs.files := by rw [← hfs]
  have hfilter : (pathSteps p).filter (fun r => !decide (r ∈ fs2.dirs)) = [] := by
    rw [List.filter_eq_nil_iff]
    intro r hr
    simp [hdirs r hr]
  unfold CreateFolderCheck MkdirAll
  have hc2 : ((pathSteps p).any fun q2 => decide (q2 ∈ fs2.files)) = false := by
    rw [hfiles]
    simpa using hc
  simp only [hc2, Bool.false_eq_true, if_false, hfilter, List.append_nil]

/-- Witness for `createFolderCheck_idempotent`: creating `a/b` in the
empty filesystem and then creating it again. -/
theorem createFolderCheck_idempotent_witness :
    CreateFolderCheck ⟨[["a"], ["a", "b"]], []⟩ ["a", "b"]
      = .ok (["a", "b"], ⟨[["a"], ["a", "b"]], []⟩) := by
  have h := createFolderCheck_idempotent ⟨[], []⟩ ⟨[["a"], ["a", "b"]], []⟩
    ["a", "b"] ["a", "b"] rfl
  exact h.2.2

/-- `splitOnNl` never returns the empty list of lines. -/
theorem splitOnNl_ne_nil (l : List Char) : splitOnNl l ≠ [] := by
  induction l with
  | nil => simp [splitOnNl]
  | cons c rest ih =>
    by_cases hc : c = '\n'
    · simp [splitOnNl, hc]
    · simp only [splitOnNl, if_neg hc]
      rcases hr : splitOnNl rest with _ | ⟨l0, ls⟩ <;> simp

/-- A newline-free character list is a single line. -/
theorem splitOnNl_no_nl (l : List Char) (h : '\n' ∉ l) : splitOnNl l = [l] := by
  induction l with
  | nil => rfl
  | cons c rest ih =>
    have hc : ¬c = '\n' := fun e => h (e ▸ List.mem_cons_self c rest)
    have hrest : '\n' ∉ rest := fun m => h (List.mem_cons_of_mem c m)
    simp [splitOnNl, hc, ih hrest]

/-- Splitting after a newline-free chunk followed by a newline peels off
that chunk as the first line. -/
theorem splitOnNl_append_nl (l r : List Char) (h : '\n' ∉ l) :
    splitOnNl (l ++ '\n' :: r) = l :: splitOnNl r := by
  induction l with
  | nil => simp [splitOnNl]
  | cons c rest ih =>
    have hc : ¬c = '\n' := fun e => h (e ▸ List.mem_cons_self c rest)
    have hrest : '\n' ∉ rest := fun m => h (List.mem_cons_of_mem c m)
    simp [splitOnNl, hc, ih hrest]

/-- Splitting the newline-join of newline-free lines gives the lines
back. -/
theorem splitOnNl_joinNl (lines : List (List Char)) (hne : lines ≠ [])
    (h : ∀ l ∈ lines, '\n' ∉ l) : splitOnNl (joinNl lines) = lines := by
  induction lines with
  | nil => cases hne rfl
  | cons l rest ih =>
    cases rest with
    | nil => simpa [joinNl] using splitOnNl_no_nl l (h l (by simp))
    | cons l2 ls =>
      rw [joinNl, splitOnNl_append_nl l _ (h l (by simp)),
        ih (by simp) (fun m hm => h m (by simp [hm]))]

/-- Every line produced by `splitOnNl` is newline-free. -/
theorem nl_not_mem_splitOnNl (l : List Char) : ∀ s ∈ splitOnNl l, '\n' ∉ s := by
  induction l with
  | nil =>
    intro s hs
    simp [splitOnNl] at hs
    simp [hs]
  | cons c rest ih =>
    intro s hs
    by_cases hc : c = '\n'
    · simp [splitOnNl, hc] at hs
      rcases hs with hs | hs
      · simp [hs]
      · exact ih s hs
    · simp only [splitOnNl, if_neg hc] at hs
      rcases hr : splitOnNl rest with _ | ⟨l0, ls⟩
      · exact absurd hr (splitOnNl_ne_nil rest)
      · rw [hr] at hs
        simp at hs
        rcases hs with hs | hs
        · subst hs
          have hl0 := ih l0 (by rw [hr]; simp)
          simp [hc]
          exact ⟨fun e => hc e.symm, hl0⟩
        · exact ih s (by rw [hr]; simp [hs])

/-- C3: on a readable file, `ReplaceByPrefix` rewrites the file to the
newline-join of its newline-split lines with every line starting with the
prefix replaced; line for line, matching lines become the replacement and
non-matching lines are unchanged; on `["A=1","B=2","C=3"]` with prefix
`"B="` and replacement `"B=99"` the result is `["A=1","B=99","C=3"]`. -/
theorem replaceByPrefix_lines (fsm : String → Option (List Char))
    (filename : String) (input pre replace : List Char)
    (hin : fsm filename = some input) (hnl : '\n' ∉ replace) :
    ReplaceByPrefix fsm none filename pre replace
      = .ok (fun n => if n = filename then
          some (ReplaceByPrefixContent input pre replace) else fsm n)
    ∧ splitOnNl (ReplaceByPrefixContent input pre replace)
      = (splitOnNl input).map
          (fun line => if pre.isPrefixOf line then replace else line)
    ∧ (∀ i : Nat, (splitOnNl (ReplaceByPrefixContent input pre replace))[i]?
        = ((splitOnNl input)[i]?).map
            (fun line => if pre.isPrefixOf line then replace else line))
    ∧ ReplaceByPrefixContent "A=1\nB=2\nC=3".toList "B=".toList "B=99".toList
      = "A=1\nB=99\nC=3".toList := by
  have hsplit : splitOnNl (ReplaceByPrefixContent input pre replace)
      = (splitOnNl input).map
          (fun line => if pre.isPrefixOf line then replace else line) := by
    unfold ReplaceByPrefixContent
    refine splitOnNl_joinNl _ ?_ ?_
    · simp [splitOnNl_ne_nil input]
    · intro l hl
      rcases List.mem_map.mp hl with ⟨l0, hl0, hmap⟩
      by_cases hp : pre.isPrefixOf l0
      · rw [← hmap]
        simp [hp, hnl]
      · rw [← hmap]
        simp only [hp, if_false, Bool.false_eq_true]
        exact nl_not_mem_splitOnNl input l0 hl0
  refine ⟨by simp [ReplaceByPrefix, hin], hsplit, ?_, by decide⟩
  intro i
  rw [hsplit, List.getElem?_map]

/-- Witness for `replaceByPrefix_lines` on the spec's example file. -/
theorem replaceByPrefix_lines_witness :
    ReplaceByPrefixContent "A=1\nB=2\nC=3".toList "B=".toList "B=99".toList
      = "A=1\nB=99\nC=3".toList := by
  have h := replaceByPrefix_lines
    (fun n => if n = "f" then some "A=1\nB=2\nC=3".toList else none) "f"
    "A=1\nB=2\nC=3".toList "B=".toList "B=99".toList (by simp) (by decide)
  exact h.2.2.2

/-- C10: with the empty prefix every line matches, so the rewritten
content is the replacement joined by newlines, once per original line,
and every rewritten line is the replacement. -/
theorem replaceByPrefix_empty_prefix (input replace : List Char) :
    ReplaceByPrefixContent input [] replace
      = joinNl (List.replicate (splitOnNl input).length replace)
    ∧ ∀ line ∈ (splitOnNl input).map
        (fun l => if ([] : List Char).isPrefixOf l then replace else l),
      line = replace := by
  have hconst : ∀ l : List Char,
      (if ([] : List Char).isPrefixOf l then replace else l) = replace := by
    intro l
    simp [List.isPrefixOf]
  have hmap : (splitOnNl input).map
      (fun l => if ([] : List Char).isPrefixOf l then replace else l)
      = List.replicate (splitOnNl input).length replace := by
    have h2 : ∀ L : List (List Char),
        L.map (fun l => if ([] : List Char).isPrefixOf l then replace else l)
          = List.replicate L.length replace := by
      intro L
      induction L with
      | nil => rfl
      | cons a t ih => simp [List.replicate, hconst a, ih]
    exact h2 (splitOnNl input)
  constructor
  · unfold ReplaceByPrefixContent
    rw [hmap]
  · intro line hline
    rw [hmap] at hline
    exact List.eq_of_mem_replicate hline

/-- `childName dir p` answers `n` exactly for the immediate child
`dir ++ [n]`. -/
theorem childName_eq_some_iff (dir p : FPath) (n : String) :
    childName dir p = some n ↔ p = dir ++ [n] := by
  unfold childName
  constructor
  · intro h
    by_cases htake : p.take dir.length = dir
    · rw [if_pos htake] at h
      rcases hd : p.drop dir.length with _ | ⟨m, tl⟩
      · rw [hd] at h
        exact absurd h (by simp)
      · rcases tl with _ | ⟨m2, tl2⟩
        · rw [hd] at h
          simp at h
          subst h
          have hsplit := List.take_append_drop dir.length p
          rw [htake, hd] at hsplit
          exact hsplit.symm
        · rw [hd] at h
          exact absurd h (by simp)
    · rw [if_neg htake] at h
      exact absurd h (by simp)
  · intro h
    subst h
    have ht : (dir ++ [n]).take dir.length = dir := List.take_left dir [n]
    have hd : (dir ++ [n]).drop dir.length = [n] := List.drop_left dir [n]
    rw [if_pos ht, hd]

/-- `n` is among the child names of `dir` exactly when `dir ++ [n]` exists
in the filesystem. -/
theorem mem_childrenNames (fs : FS) (dir : FPath) (n : String) :
    n ∈ fs.childrenNames dir ↔ dir ++ [n] ∈ fs.dirs ∨ dir ++ [n] ∈ fs.files := by
  unfold FS.childrenNames
  rw [List.mem_filterMap]
  constructor
  · rintro ⟨p, hp, hcn⟩
    have hpn := (childName_eq_some_iff dir p n).mp hcn
    subst hpn
    exact List.mem_append.mp hp
  · intro h
    exact ⟨dir ++ [n], List.mem_append.mpr h, (childName_eq_some_iff dir _ n).mpr rfl⟩

/-- Membership after `removeAll`: a path survives exactly when it
survived before and does not sit under the removed path. -/
theorem mem_removeAll (fs : FS) (p q : FPath) :
    (q ∈ (fs.removeAll p).dirs ↔ q ∈ fs.dirs ∧ ¬q.take p.length = p)
    ∧ (q ∈ (fs.removeAll p).files ↔ q ∈ fs.files ∧ ¬q.take p.length = p) := by
  constructor <;> simp [FS.removeAll, List.mem_filter]

/-- Membership after removing a batch of immediate children of `dir`. -/
theorem mem_foldl_removeAll (dir : FPath) :
    ∀ (names : List String) (fs : FS) (q : FPath),
      (q ∈ (names.foldl (fun f n => f.removeAll (dir ++ [n])) fs).dirs ↔
        q ∈ fs.dirs ∧ ∀ n ∈ names, ¬q.take (dir.length + 1) = dir ++ [n])
      ∧ (q ∈ (names.foldl (fun f n => f.removeAll (dir ++ [n])) fs).files ↔
        q ∈ fs.files ∧ ∀ n ∈ names, ¬q.take (dir.length + 1) = dir ++ [n]) := by
  intro names
  induction names with
  | nil =>
    intro fs q
    simp
  | cons n rest ih =>
    intro fs q
    have hlen : (dir ++ [n]).length = dir.length + 1 := by simp
    constructor
    · rw [List.foldl_cons, (ih (fs.removeAll (dir ++ [n])) q).1,
        (mem_removeAll fs (dir ++ [n]) q).1, hlen]
      constructor
      · rintro ⟨⟨hq, hne⟩, hall⟩
        refine ⟨hq, fun m hm => ?_⟩
        rcases List.mem_cons.mp hm with h | h
        · subst h; exact hne
        · exact hall m h
      · rintro ⟨hq, hall⟩
        exact ⟨⟨hq, hall n (by simp)⟩, fun m hm => hall m (by simp [hm])⟩
    · rw [List.foldl_cons, (ih (fs.removeAll (dir ++ [n])) q).2,
        (mem_removeAll fs (dir ++ [n]) q).2, hlen]
      constructor
      · rintro ⟨⟨hq, hne⟩, hall⟩
        refine ⟨hq, fun m hm => ?_⟩
        rcases List.mem_cons.mp hm with h | h
        · subst h; exact hne
        · exact hall m h
      · rintro ⟨hq, hall⟩
        exact ⟨⟨hq, hall n (by simp)⟩, fun m hm => hall m (by simp [hm])⟩

/-- When no removal fails, the loop attempts every child in order and
ends in the filesystem with all of them removed. -/
theorem rcLoop_all_ok (rmFail : FPath → Bool) (dir : FPath) :
    ∀ (names : List String) (fs : FS),
      (∀ n ∈ names, rmFail (dir ++ [n]) = false) →
      rcLoop rmFail dir fs names
        = (names, .ok (names.foldl (fun f n => f.removeAll (dir ++ [n])) fs)) := by
  intro names
  induction names with
  | nil => intro fs _; rfl
  | cons n rest ih =>
    intro fs h
    have hn : rmFail (dir ++ [n]) = false := h n (by simp)
    have hrest := ih (fs.removeAll (dir ++ [n])) (fun m hm => h m (by simp [hm]))
    simp [rcLoop, hn, hrest]

/-- A successful loop means no removal failed. -/
theorem rcLoop_ok_imp (rmFail : FPath → Bool) (dir : FPath) :
    ∀ (names : List String) (fs fs' : FS),
      (rcLoop rmFail dir fs names).2 = .ok fs' →
      ∀ n ∈ names, rmFail (dir ++ [n]) = false := by
  intro names
  induction names with
  | nil =>
    intro fs fs' _ n hn
    simp at hn
  | cons n rest ih =>
    intro fs fs' h m hm
    by_cases hn : rmFail (dir ++ [n])
    · simp [rcLoop, hn] at h
    · rcases List.mem_cons.mp hm with hmn | hmr
      · subst hmn
        simpa using hn
      · have h2 : (rcLoop rmFail dir (fs.removeAll (dir ++ [n])) rest).2 = .ok fs' := by
          simpa [rcLoop, hn] using h
        exact ih _ fs' h2 m hmr

/-- The loop attempts exactly the children before the first failing one,
plus that failing child when there is one. -/
theorem rcLoop_attempted (rmFail : FPath → Bool) (dir : FPath) :
    ∀ (names : List String) (fs : FS),
      (rcLoop rmFail dir fs names).1
        = names.takeWhile (fun n => !rmFail (dir ++ [n]))
          ++ (names.dropWhile (fun n => !rmFail (dir ++ [n]))).take 1 := by
  intro names
  induction names with
  | nil => intro fs; rfl
  | cons n rest ih =>
    intro fs
    by_cases hn : rmFail (dir ++ [n])
    · simp [rcLoop, hn, List.takeWhile_cons, List.dropWhile_cons]
    · simp [rcLoop, hn, List.takeWhile_cons, List.dropWhile_cons,
        ih (fs.removeAll (dir ++ [n]))]

/-- C8: on an existing directory with a well-formed filesystem,
`RemoveContents` attempts the children in order up to and including the
first failed removal (attempting none of the later children); on success
it has attempted every child, the directory itself is still present, it
has no children left, and nothing under it survives. -/
theorem removeContents_spec (rmFail : FPath → Bool) (fs : FS) (dir : FPath)
    (hdir : dir ∈ fs.dirs) (hwf : fs.Wf) :
    (RemoveContents rmFail fs dir).1
      = (fs.childrenNames dir).takeWhile (fun n => !rmFail (dir ++ [n]))
        ++ ((fs.childrenNames dir).dropWhile (fun n => !rmFail (dir ++ [n]))).take 1
    ∧ ∀ fs', (RemoveContents rmFail fs dir).2 = .ok fs' →
        (RemoveContents rmFail fs dir).1 = fs.childrenNames dir
        ∧ fs'.childrenNames dir = []
        ∧ dir ∈ fs'.dirs
        ∧ (∀ q : FPath, (q ∈ fs'.dirs ∨ q ∈ fs'.files) →
            q.take dir.length = dir → q = dir) := by
  have hrc : RemoveContents rmFail fs dir
      = rcLoop rmFail dir fs (fs.childrenNames dir) := by
    unfold RemoveContents
    simp [hdir]
  refine ⟨by rw [hrc]; exact rcLoop_attempted rmFail dir _ fs, ?_⟩
  intro fs' hok
  rw [hrc] at hok
  have hall : ∀ n ∈ fs.childrenNames dir, rmFail (dir ++ [n]) = false :=
    rcLoop_ok_imp rmFail dir _ fs fs' hok
  have heq := rcLoop_all_ok rmFail dir (fs.childrenNames dir) fs hall
  rw [heq] at hok
  simp only [] at hok
  have hfs' : fs' = (fs.childrenNames dir).foldl
      (fun f n => f.removeAll (dir ++ [n])) fs := by
    cases hok
    rfl
  subst hfs'
  refine ⟨by rw [hrc, heq], ?_, ?_, ?_⟩
  · unfold FS.childrenNames
    rw [List.filterMap_eq_nil_iff]
    intro p hp
    rcases hcn : childName dir p with _ | n
    · rfl
    exfalso
    have hpn := (childName_eq_some_iff dir p n).mp hcn
    have hmem := List.mem_append.mp hp
    rcases hmem with hpd | hpf
    · obtain ⟨hpfs, hno⟩ := (mem_foldl_removeAll dir (fs.childrenNames dir) fs p).1.mp hpd
      have hn : n ∈ fs.childrenNames dir :=
        (mem_childrenNames fs dir n).mpr (Or.inl (hpn ▸ hpfs))
      apply hno n hn
      rw [hpn]
      exact List.take_of_length_le (by simp)
    · obtain ⟨hpfs, hno⟩ := (mem_foldl_removeAll dir (fs.childrenNames dir) fs p).2.mp hpf
      have hn : n ∈ fs.childrenNames dir :=
        (mem_childrenNames fs dir n).mpr (Or.inr (hpn ▸ hpfs))
      apply hno n hn
      rw [hpn]
      exact List.take_of_length_le (by simp)
  · refine (mem_foldl_removeAll dir (fs.childrenNames dir) fs dir).1.mpr
      ⟨hdir, fun n hn hcontra => ?_⟩
    have htake : dir.take (dir.length + 1) = dir :=
      List.take_of_length_le (Nat.le_succ _)
    rw [htake] at hcontra
    have hlen := congrArg List.length hcontra
    simp at hlen
  · intro q hq htake
    by_contra hne
    have hq2 : (q ∈ fs.dirs ∨ q ∈ fs.files)
        ∧ ∀ n ∈ fs.childrenNames dir, ¬q.take (dir.length + 1) = dir ++ [n] := by
      rcases hq with hqd | hqf
      · obtain ⟨h1, h2⟩ := (mem_foldl_removeAll dir (fs.childrenNames dir) fs q).1.mp hqd
        exact ⟨Or.inl h1, h2⟩
      · obtain ⟨h1, h2⟩ := (mem_foldl_removeAll dir (fs.childrenNames dir) fs q).2.mp hqf
        exact ⟨Or.inr h1, h2⟩
    obtain ⟨hqfs, hno⟩ := hq2
    have hlt : dir.length < q.length := by
      by_contra hle
      push_neg at hle
      have : q.take dir.length = q := List.take_of_length_le hle
      exact hne (this ▸ htake)
    rcases hget : q[dir.length]? with _ | c
    · rw [List.getElem?_eq_none_iff] at hget
      omega
    have htakesucc : q.take (dir.length + 1) = dir ++ [c] := by
      rw [List.take_succ, htake, hget]
      rfl
    have hc : c ∈ fs.childrenNames dir := by
      by_cases hqlen : dir.length + 1 < q.length
      · have hstep : q.take (dir.length + 1) ∈ fs.dirs :=
          hwf q (List.mem_append.mpr hqfs) (dir.length + 1)
            (List.mem_range.mpr hqlen) (Nat.succ_pos _)
        rw [htakesucc] at hstep
        exact (mem_childrenNames fs dir c).mpr (Or.inl hstep)
      · have hqeq : q.length = dir.length + 1 := by omega
        have hqfull : q.take (dir.length + 1) = q :=
          List.take_of_length_le (by omega)
        rw [hqfull] at htakesucc
        subst htakesucc
        exact (mem_childrenNames fs dir c).mpr hqfs
    exact hno c hc htakesucc

/-- Witness for `removeContents_spec`: emptying a directory holding a
subdirectory and a file, with no removal failing. -/
theorem removeContents_spec_witness :
    (RemoveContents (fun _ => false)
        ⟨[["d"], ["d", "sub"]], [["d", "f"]]⟩ ["d"]).1 = ["sub", "f"]
    ∧ (RemoveContents (fun _ => false)
        ⟨[["d"], ["d", "sub"]], [["d", "f"]]⟩ ["d"]).2 = .ok ⟨[["d"]], []⟩ := by
  have h := removeContents_spec (fun _ => false)
    ⟨[["d"], ["d", "sub"]], [["d", "f"]]⟩ ["d"] (by decide)
    (by unfold FS.Wf; decide)
  refine ⟨?_, rfl⟩
  rw [h.1]
  rfl

/-- C5: `Exists` returns `false` exactly when the stat call reports
not-exist; it returns `true` when stat succeeds and when it fails with any
other error. -/
theorem exists_false_iff_notExist :
    (∀ r : Option Err, Exists r = false ↔ r = some .notExist)
    ∧ Exists none = true
    ∧ (∀ c : Nat, Exists (some (.other c)) = true) := by
  refine ⟨?_, rfl, fun c => rfl⟩
  intro r
  match r with
  | none => simp [Exists]
  | some .notExist => simp [Exists, Err.isNotExist]
  | some (.other c) => simp [Exists, Err.isNotExist]

end Portapps
